import Mathlib

/-!
Verification of the stm32f103xx-usb bus driver (`src/bus.rs`, with the
demonstration class in `examples/serial.rs`).

The development shallowly embeds the driver's data model and operations:
machine integers become `Nat`, register state becomes explicit record
fields threaded through the functions, fallible operations return
`Except UsbError`, and operations that can panic in Rust (array index out
of bounds, failed `assert!`) return `Option`, with `none` marking the
panic.  Functions are translated from `src/bus.rs` and
`examples/serial.rs`; the endpoint module (`endpoint.rs`) is not part of
the sources, so the handful of endpoint-level behaviours the bus driver
delegates to are modelled from the specification and marked as such in
their doc comments.
-/

/-- Error type of the `usb_device` crate, restricted to the variants this
driver and its example use (`UsbError::SizeOverflow` etc. in the source). -/
inductive UsbError where
  | SizeOverflow
  | EndpointOverflow
  | InvalidEndpoint
  | Unsupported
  | Busy
  | NoData
  deriving Repr, DecidableEq

/-- Endpoint type `EndpointType` from the `usb_device` crate. -/
inductive EndpointType where
  | Control
  | Isochronous
  | Bulk
  | Interrupt
  deriving Repr, DecidableEq

/-- Direction type `EndpointDirection` from the `usb_device` crate: `In` is
device-to-host, `Out` is host-to-device. -/
inductive EndpointDirection where
  | In
  | Out
  deriving Repr, DecidableEq

/-- Logical values of the peripheral's 2-bit toggle-encoded endpoint
status fields (`EndpointStatus` in the endpoint module): `Disabled`,
`Stall`, `Nak`, `Valid`.  Mutations are modelled at intent level, storing
the logical value directly. -/
inductive EndpointStatus where
  | Disabled
  | Stall
  | Nak
  | Valid
  deriving Repr, DecidableEq

/-- Address type `EndpointAddress` from the `usb_device` crate: a slot index plus a
direction (`EndpointAddress::from_parts(index, dir)` in the source). -/
structure EndpointAddress where
  index : Nat
  dir : EndpointDirection
  deriving Repr, DecidableEq

/-- Accessor `ep_addr.is_in()`. -/
def EndpointAddress.is_in (a : EndpointAddress) : Bool :=
  a.dir = EndpointDirection.In

/-- Accessor `ep_addr.is_out()`. -/
def EndpointAddress.is_out (a : EndpointAddress) : Bool :=
  a.dir = EndpointDirection.Out

/-- One endpoint slot of the driver (`Endpoint` in the endpoint module,
fields as used by `src/bus.rs`): the optional endpoint type, the optional
transmit (in) and receive (out) buffer descriptors, the two 2-bit status
fields, the correct-transfer flags and the setup flag of the endpoint
register, and the count of pending received bytes in packet memory. -/
structure EndpointState where
  ep_type : Option EndpointType := none
  in_buf : Option (Nat × Nat) := none
  out_buf : Option (Nat × Nat × Nat) := none
  stat_tx : EndpointStatus := EndpointStatus.Disabled
  stat_rx : EndpointStatus := EndpointStatus.Disabled
  ctr_rx : Bool := false
  ctr_tx : Bool := false
  setup : Bool := false
  rx_count : Nat := 0
  deriving Repr, DecidableEq

instance : Inhabited EndpointState :=
  ⟨{}⟩

/-- Accessor `ep.is_in_buf_set()`. -/
def EndpointState.is_in_buf_set (ep : EndpointState) : Bool :=
  ep.in_buf.isSome

/-- Accessor `ep.is_out_buf_set()`. -/
def EndpointState.is_out_buf_set (ep : EndpointState) : Bool :=
  ep.out_buf.isSome

/-- Modelled from the spec: the number of hardware endpoint slots
(`NUM_ENDPOINTS` in the endpoint module, not under the sources); the
peripheral has 8 endpoint registers. -/
def NUM_ENDPOINTS : Nat := 8

/-- Modelled from the spec: total packet-memory capacity in bytes
(`Endpoint::MEM_SIZE`, not under the sources). -/
def MEM_SIZE : Nat := 512

/-- Modelled from the spec: the fixed reserved base of the allocation
cursor (`Endpoint::MEM_START`, not under the sources) — the space for the
buffer-descriptor table itself is excluded from allocation. -/
def MEM_START : Nat := 64

/-- Function `UsbBus::alloc_ep_mem(next_ep_mem, size)` from `src/bus.rs`: asserts
that `size` is even (modelled as `none`, the panic), fails with
`SizeOverflow` when `addr + size` would exceed `MEM_SIZE`, and otherwise
returns the previous cursor and advances the cursor by `size`.  The
result pairs the call's outcome with the new cursor value. -/
def alloc_ep_mem (next_ep_mem size : Nat) :
    Option (Except UsbError Nat × Nat) :=
  if size % 2 ≠ 0 then
    none
  else if next_ep_mem + size > MEM_SIZE then
    some (Except.error UsbError.SizeOverflow, next_ep_mem)
  else
    some (Except.ok next_ep_mem, next_ep_mem + size)

/-- Runs `alloc_ep_mem` on each size of a list in turn, threading the
cursor, and returns the list of `(offset, size)` ranges when every call
succeeds, together with the final cursor; `none` when any call fails or
panics. -/
def allocRanges (next_ep_mem : Nat) : List Nat →
    Option (List (Nat × Nat) × Nat)
  | [] => some ([], next_ep_mem)
  | size :: rest =>
    match alloc_ep_mem next_ep_mem size with
    | some (Except.ok addr, next') =>
      match allocRanges next' rest with
      | some (rs, final) => some ((addr, size) :: rs, final)
      | none => none
    | _ => none

/-- Two byte ranges `[o, o + s)` given as `(offset, size)` pairs are
disjoint. -/
def rangesDisjoint (r1 r2 : Nat × Nat) : Prop :=
  r1.1 + r1.2 ≤ r2.1 ∨ r2.1 + r2.2 ≤ r1.1

/-- The status field of an endpoint for a direction, as read by
`UsbBus::is_stalled` in `src/bus.rs` (`stat_tx` for `In`, `stat_rx` for
`Out`). -/
def dirStat (ep : EndpointState) (d : EndpointDirection) : EndpointStatus :=
  match d with
  | EndpointDirection.In => ep.stat_tx
  | EndpointDirection.Out => ep.stat_rx

/-- Method `UsbBus::is_stalled(ep_addr)` from `src/bus.rs`: reads the endpoint
register once and compares the direction's status bits against the
`Stall` encoding.  `none` models the panic on an out-of-range index. -/
def is_stalled (eps : List EndpointState) (a : EndpointAddress) :
    Option Bool :=
  (eps[a.index]?).map (fun ep => dirStat ep a.dir == EndpointStatus.Stall)

/-- Method `UsbBus::set_stalled(ep_addr, stalled)` from `src/bus.rs`: under a
critical section, returns unchanged when the endpoint is already in the
requested stall state; otherwise writes the direction's status — `Stall`
to stall either direction, `Nak` to un-stall the `In` direction, and
`Valid` to un-stall the `Out` direction. -/
def set_stalled (eps : List EndpointState) (a : EndpointAddress)
    (stalled : Bool) : Option (List EndpointState) :=
  match is_stalled eps a with
  | none => none
  | some cur =>
    if cur = stalled then some eps
    else
      match eps[a.index]? with
      | none => none
      | some ep =>
        some (eps.set a.index
          (match stalled, a.dir with
           | true, EndpointDirection.In =>
             { ep with stat_tx := EndpointStatus.Stall }
           | true, EndpointDirection.Out =>
             { ep with stat_rx := EndpointStatus.Stall }
           | false, EndpointDirection.In =>
             { ep with stat_tx := EndpointStatus.Nak }
           | false, EndpointDirection.Out =>
             { ep with stat_rx := EndpointStatus.Valid }))

/-- Modelled from the spec: `Endpoint::write` of the endpoint module
(not under the sources).  Per the spec's transfer-I/O section, a write
while the endpoint is still busy completing a previous transmission (its
transmit status still armed `Valid`) reports zero bytes written and is
not an error; otherwise the data is copied into the endpoint's packet
memory and the transmit status is armed to `Valid`. -/
def ep_write (ep : EndpointState) (buf_len : Nat) :
    Except UsbError (Nat × EndpointState) :=
  if ep.stat_tx = EndpointStatus.Valid then
    Except.ok (0, ep)
  else
    Except.ok (buf_len, { ep with stat_tx := EndpointStatus.Valid })

/-- Modelled from the spec: `Endpoint::read` of the endpoint module (not
under the sources).  Per the spec's transfer-I/O section, a read with no
pending data reports zero bytes and is not an error; otherwise up to the
buffer's capacity is copied out of packet memory, the receive-complete
flag is consumed and the receive status is re-armed to `Valid`. -/
def ep_read (ep : EndpointState) (buf_cap : Nat) :
    Except UsbError (Nat × EndpointState) :=
  if ep.ctr_rx = false then
    Except.ok (0, ep)
  else
    Except.ok (min ep.rx_count buf_cap,
      { ep with ctr_rx := false, stat_rx := EndpointStatus.Valid })

/-- Method `UsbBus::write(ep_addr, buf)` from `src/bus.rs`: fails with
`InvalidEndpoint` when the address is not an `In` address, otherwise
delegates to the endpoint's write.  `none` models the panic on an
out-of-range index.  The buffer is abstracted by its length. -/
def UsbBus.write (eps : List EndpointState) (a : EndpointAddress) (buf_len : Nat) :
    Option (Except UsbError Nat × List EndpointState) :=
  if !a.is_in then
    some (Except.error UsbError.InvalidEndpoint, eps)
  else
    match eps[a.index]? with
    | none => none
    | some ep =>
      match ep_write ep buf_len with
      | Except.ok (n, ep') => some (Except.ok n, eps.set a.index ep')
      | Except.error e => some (Except.error e, eps)

/-- Method `UsbBus::read(ep_addr, buf)` from `src/bus.rs`: fails with
`InvalidEndpoint` when the address is not an `Out` address, otherwise
delegates to the endpoint's read.  `none` models the panic on an
out-of-range index.  The buffer is abstracted by its capacity. -/
def UsbBus.read (eps : List EndpointState) (a : EndpointAddress) (buf_cap : Nat) :
    Option (Except UsbError Nat × List EndpointState) :=
  if !a.is_out then
    some (Except.error UsbError.InvalidEndpoint, eps)
  else
    match eps[a.index]? with
    | none => none
    | some ep =>
      match ep_read ep buf_cap with
      | Except.ok (n, ep') => some (Except.ok n, eps.set a.index ep')
      | Except.error e => some (Except.error e, eps)

/-- The result mapping `SerialPort::write` of `examples/serial.rs`
applies to the endpoint write's outcome: a `Busy` error becomes a
zero-byte success, anything else passes through. -/
def serial_write_result (r : Except UsbError Nat) : Except UsbError Nat :=
  match r with
  | Except.ok count => Except.ok count
  | Except.error UsbError.Busy => Except.ok 0
  | e => e

/-- The result mapping `SerialPort::read` of `examples/serial.rs`
applies to the endpoint read's outcome: a `NoData` error becomes a
zero-byte success, anything else passes through. -/
def serial_read_result (r : Except UsbError Nat) : Except UsbError Nat :=
  match r with
  | Except.error UsbError.NoData => Except.ok 0
  | e => e

/-- The interrupt-status register bits read and cleared by
`UsbBus::poll` in `src/bus.rs`: wakeup, bus reset, suspend and
correct-transfer.  All four are sticky: hardware sets them, software
clears them. -/
structure Istr where
  wkup : Bool
  reset : Bool
  susp : Bool
  ctr : Bool
  deriving Repr, DecidableEq

/-- The frame-number register bits sampled by the wakeup branch of
`UsbBus::poll`: the current states of the D+ and D− data lines. -/
structure Fnr where
  rxdp : Bool
  rxdm : Bool
  deriving Repr, DecidableEq

/-- Result type `PollResult` of the `usb_device` crate, as produced by
`UsbBus::poll`. -/
inductive PollResult where
  | None
  | Reset
  | Resume
  | Suspend
  | Data (ep_out ep_in_complete ep_setup : Nat)
  deriving Repr, DecidableEq

/-- The state `UsbBus::poll` operates on: the non-blocking register
guard (`locked` means some other in-flight `poll` holds it), the
interrupt-status and frame-number registers, the endpoint registers and
the `max_endpoint` bound computed at `enable` time. -/
structure PollState where
  locked : Bool
  istr : Istr
  fnr : Fnr
  endpoints : List EndpointState
  max_endpoint : Nat
  deriving Repr, DecidableEq

/-- The correct-transfer scan of `UsbBus::poll` (`src/bus.rs`): walks the
endpoint slots with a moving bit (starting at 1, doubled per slot),
reads each endpoint register once, ORs the slot's bit into the
receive-complete mask when `ctr_rx` is set (and into the setup mask when
the `setup` flag is also set), ORs it into the transmit-complete mask
when `ctr_tx` is set and clears that `ctr_tx` flag immediately, leaving
`ctr_rx` untouched.  Returns the three masks and the updated slots. -/
def ctr_scan : List EndpointState → Nat → Nat × Nat × Nat × List EndpointState
  | [], _ => (0, 0, 0, [])
  | ep :: rest, bit =>
    let r := ctr_scan rest (bit * 2)
    let ep_out := if ep.ctr_rx then r.1 ||| bit else r.1
    let ep_setup := if ep.ctr_rx && ep.setup then r.2.2.1 ||| bit else r.2.2.1
    let step :=
      if ep.ctr_tx then (r.2.1 ||| bit, { ep with ctr_tx := false })
      else (r.2.1, ep)
    (ep_out, step.1, ep_setup, step.2 :: r.2.2.2)

/-- One accumulator of the correct-transfer scan in isolation: the mask
collecting the bits of the slots satisfying `cond`. -/
def mask_scan (cond : EndpointState → Bool) :
    List EndpointState → Nat → Nat
  | [], _ => 0
  | ep :: rest, bit =>
    let m := mask_scan cond rest (bit * 2)
    if cond ep then m ||| bit else m

/-- Method `UsbBus::poll` from `src/bus.rs`.  Tries the register guard without
blocking and returns `None` untouched when it is already held.
Otherwise decides by priority on the sticky interrupt-status bits:
wakeup (cleared; `Resume`, or `Suspend` on a spurious line state), then
bus reset (cleared; `Reset`), then suspend (cleared; `Suspend`), then
correct-transfer (scan the slots `0 ..= max_endpoint`; `Data` with the
three masks), then idle (`None`). -/
def poll (s : PollState) : PollResult × PollState :=
  if s.locked then
    (PollResult.None, s)
  else if s.istr.wkup then
    let s' := { s with istr := { s.istr with wkup := false } }
    match s.fnr.rxdp, s.fnr.rxdm with
    | false, false => (PollResult.Resume, s')
    | false, true => (PollResult.Resume, s')
    | true, _ => (PollResult.Suspend, s')
  else if s.istr.reset then
    (PollResult.Reset, { s with istr := { s.istr with reset := false } })
  else if s.istr.susp then
    (PollResult.Suspend, { s with istr := { s.istr with susp := false } })
  else if s.istr.ctr then
    let r := ctr_scan (s.endpoints.take (s.max_endpoint + 1)) 1
    (PollResult.Data r.1 r.2.1 r.2.2.1,
      { s with endpoints := r.2.2.2 ++ s.endpoints.drop (s.max_endpoint + 1) })
  else
    (PollResult.None, s)

/-- One register-level action of `UsbBus::force_reset` in `src/bus.rs`:
a write of the power-down bit, driving the reset pin low, or the
busy-wait of a cycle count. -/
inductive ResetAction where
  | pdwn (b : Bool)
  | pin_low
  | wait (cycles : Nat)
  deriving Repr, DecidableEq

/-- The state `UsbBus::force_reset` operates on: the optional reset
capability (the busy-wait cycle count recorded by
`UsbBus::enable_reset`), the power-down bit of the control register, and
the level of the reset pin. -/
structure ResetState where
  reset : Option Nat
  pdwn : Bool
  pin_is_low : Bool
  deriving Repr, DecidableEq

/-- Method `UsbBus::enable_reset` from `src/bus.rs`: configures the reset
capability, recording the system clock frequency as the busy-wait cycle
count (`delay: clocks.sysclk().0`). -/
def enable_reset (s : ResetState) (sysclk_hz : Nat) : ResetState :=
  { s with reset := some sysclk_hz }

/-- Method `UsbBus::force_reset` from `src/bus.rs`: with no reset capability
configured, fails with `Unsupported`.  Otherwise, under a critical
section: records the current power-down bit, sets power-down, drives the
reset pin low, busy-waits the configured cycle count, then restores the
prior power-down bit.  The result carries the action sequence performed
so that the absence of register writes in the failure case is visible. -/
def force_reset (s : ResetState) :
    Except UsbError Unit × ResetState × List ResetAction :=
  match s.reset with
  | none => (Except.error UsbError.Unsupported, s, [])
  | some d =>
    let pdwn := s.pdwn
    (Except.ok (),
      { s with pdwn := pdwn, pin_is_low := true },
      [ResetAction.pdwn true, ResetAction.pin_low, ResetAction.wait d,
        ResetAction.pdwn pdwn])

/-- Mutator `ep.set_ep_type(ep_type)`. -/
def set_ep_type (ep : EndpointState) (t : EndpointType) : EndpointState :=
  { ep with ep_type := some t }

/-- Mutator `ep.set_out_buf(addr, size_and_bits)`. -/
def set_out_buf (ep : EndpointState) (addr : Nat) (size_bits : Nat × Nat) :
    EndpointState :=
  { ep with out_buf := some (addr, size_bits.1, size_bits.2) }

/-- Mutator `ep.set_in_buf(addr, max_packet_size)`. -/
def set_in_buf (ep : EndpointState) (addr size : Nat) : EndpointState :=
  { ep with in_buf := some (addr, size) }

/-- Modelled from the spec: `calculate_count_rx` of the endpoint module
(not under the sources).  Receive-buffer sizes must be expressible
either as whole 2-byte blocks (sizes up to 62) or as 32-byte blocks
(sizes up to 1024); the requested size is rounded up to the next
expressible size, and the rounded size is returned together with the
peripheral's packed block-encoding; inexpressible sizes are rejected
with a size-overflow.  The exact bit layout of the encoding is
peripheral-specific; only the returned rounded size matters here. -/
def calculate_count_rx (size : Nat) : Except UsbError (Nat × Nat) :=
  if size ≤ 62 then
    let rounded := (size + 1) / 2 * 2
    Except.ok (rounded, rounded / 2 * 1024)
  else if size ≤ 1024 then
    let rounded := (size + 31) / 32 * 32
    Except.ok (rounded, 32768 + (rounded / 32 - 1) * 1024)
  else
    Except.error UsbError.SizeOverflow

/-- The slot-qualification test of the `UsbBus::alloc_ep` scan: a slot
can serve a request when its type is unset or equal to the requested
type and the requested direction's buffer descriptor is not yet set. -/
def qualifies (ep_dir : EndpointDirection) (ep_type : EndpointType)
    (ep : EndpointState) : Bool :=
  (ep.ep_type == none || ep.ep_type == some ep_type) &&
  (match ep_dir with
   | EndpointDirection.In => !ep.is_in_buf_set
   | EndpointDirection.Out => !ep.is_out_buf_set)

/-- The in-memory effect scanning one slot has in `UsbBus::alloc_ep`:
a slot whose type is still unset gets the requested type assigned
(`ep.set_ep_type(ep_type)` in the `None` arm); any other slot is left
unchanged. -/
def mark_scanned (t : EndpointType) (eps : List EndpointState)
    (index : Nat) : List EndpointState :=
  match eps[index]? with
  | some ep =>
    if ep.ep_type = none then eps.set index (set_ep_type ep t) else eps
  | none => eps

/-- The scan loop of `UsbBus::alloc_ep` from `src/bus.rs` over an
explicit list of candidate slot indices.  Per index: an out-of-range
index is the Rust panic (`none`); a slot with an unset type gets the
requested type assigned; a slot with a different type is skipped; then,
for the requested direction, a slot whose buffer is already set is
skipped, and otherwise packet memory is reserved (the
`calculate_count_rx`-rounded size for `Out`, exactly `max_packet_size`
bytes for `In`), the descriptor is recorded and the endpoint address is
returned; errors of the allocator and of `calculate_count_rx` propagate;
an exhausted list is the `EndpointOverflow` failure. -/
def alloc_ep_loop (ep_dir : EndpointDirection) (ep_type : EndpointType)
    (max_packet_size : Nat) :
    List Nat → List EndpointState → Nat →
    Option (Except UsbError EndpointAddress × List EndpointState × Nat)
  | [], eps, next => some (Except.error UsbError.EndpointOverflow, eps, next)
  | index :: rest, eps, next =>
    match eps[index]? with
    | none => none
    | some ep0 =>
      let skip := match ep0.ep_type with
        | none => false
        | some t => t ≠ ep_type
      if skip then
        alloc_ep_loop ep_dir ep_type max_packet_size rest eps next
      else
        let ep1 := match ep0.ep_type with
          | none => set_ep_type ep0 ep_type
          | some _ => ep0
        let eps1 := match ep0.ep_type with
          | none => eps.set index (set_ep_type ep0 ep_type)
          | some _ => eps
        match ep_dir with
        | EndpointDirection.Out =>
          if ep1.is_out_buf_set then
            alloc_ep_loop ep_dir ep_type max_packet_size rest eps1 next
          else
            match calculate_count_rx max_packet_size with
            | Except.error e => some (Except.error e, eps1, next)
            | Except.ok (out_size, bits) =>
              match alloc_ep_mem next out_size with
              | none => none
              | some (Except.error e, next') =>
                some (Except.error e, eps1, next')
              | some (Except.ok addr, next') =>
                some (Except.ok ⟨index, ep_dir⟩,
                  eps1.set index (set_out_buf ep1 addr (out_size, bits)),
                  next')
        | EndpointDirection.In =>
          if ep1.is_in_buf_set then
            alloc_ep_loop ep_dir ep_type max_packet_size rest eps1 next
          else
            match alloc_ep_mem next max_packet_size with
            | none => none
            | some (Except.error e, next') =>
              some (Except.error e, eps1, next')
            | some (Except.ok addr, next') =>
              some (Except.ok ⟨index, ep_dir⟩,
                eps1.set index (set_in_buf ep1 addr max_packet_size),
                next')

/-- Method `UsbBus::alloc_ep` from `src/bus.rs`: scans the single explicitly
addressed slot when an address is given
(`a.index()..a.index()+1`), and otherwise all non-zero slots in
ascending order (`1..NUM_ENDPOINTS`). -/
def alloc_ep (ep_dir : EndpointDirection) (ep_addr : Option EndpointAddress)
    (ep_type : EndpointType) (max_packet_size : Nat)
    (eps : List EndpointState) (next : Nat) :
    Option (Except UsbError EndpointAddress × List EndpointState × Nat) :=
  let indices := match ep_addr with
    | some a => [a.index]
    | none => List.range' 1 (NUM_ENDPOINTS - 1)
  alloc_ep_loop ep_dir ep_type max_packet_size indices eps next

/-- The outcome `UsbBus::alloc_ep` is claimed to produce once its scan
reaches a qualifying slot `i`: for the `In` direction exactly
`max_packet_size` bytes of packet memory are reserved and the in-buffer
descriptor records them; for the `Out` direction the
`calculate_count_rx`-rounded size is reserved and the out-buffer
descriptor records it with the block encoding; a size-overflow of the
allocator or of `calculate_count_rx` is propagated; the other
direction's descriptor of the slot is untouched. -/
def alloc_ep_hit_outcome (ep_dir : EndpointDirection)
    (ep_type : EndpointType) (max_packet_size : Nat)
    (ep_addr : Option EndpointAddress) (i next : Nat)
    (eps : List EndpointState) : Prop :=
  match ep_dir with
  | EndpointDirection.In =>
    (max_packet_size % 2 = 0 → next + max_packet_size ≤ MEM_SIZE →
      ∃ eps', alloc_ep ep_dir ep_addr ep_type max_packet_size eps next =
          some (Except.ok ⟨i, ep_dir⟩, eps', next + max_packet_size) ∧
        eps'.length = eps.length ∧
        (eps'[i]!).in_buf = some (next, max_packet_size) ∧
        (eps'[i]!).out_buf = (eps[i]!).out_buf) ∧
    (max_packet_size % 2 = 0 → next + max_packet_size > MEM_SIZE →
      ∃ eps', alloc_ep ep_dir ep_addr ep_type max_packet_size eps next =
        some (Except.error UsbError.SizeOverflow, eps', next))
  | EndpointDirection.Out =>
    (∀ out_size bits,
      calculate_count_rx max_packet_size = Except.ok (out_size, bits) →
      (next + out_size ≤ MEM_SIZE →
        ∃ eps', alloc_ep ep_dir ep_addr ep_type max_packet_size eps next =
            some (Except.ok ⟨i, ep_dir⟩, eps', next + out_size) ∧
          eps'.length = eps.length ∧
          (eps'[i]!).out_buf = some (next, out_size, bits) ∧
          (eps'[i]!).in_buf = (eps[i]!).in_buf) ∧
      (next + out_size > MEM_SIZE →
        ∃ eps', alloc_ep ep_dir ep_addr ep_type max_packet_size eps next =
          some (Except.error UsbError.SizeOverflow, eps', next))) ∧
    (∀ e, calculate_count_rx max_packet_size = Except.error e →
      ∃ eps', alloc_ep ep_dir ep_addr ep_type max_packet_size eps next =
        some (Except.error e, eps', next))

/-- The effect of the scan's type assignment on the slot value itself:
a slot with an unset type gets the requested type, any other slot is
unchanged. -/
def mark_ep (t : EndpointType) (ep : EndpointState) : EndpointState :=
  match ep.ep_type with
  | none => set_ep_type ep t
  | some _ => ep

/-- A concrete three-slot endpoint configuration for exercising the
correct-transfer scan: slot 0 has a setup packet received, slots 1 and 2
have completed transmissions. -/
def demoScanEndpoints : List EndpointState :=
  [{ ctr_rx := true, setup := true }, { ctr_tx := true },
   { ctr_tx := true }]

/-- A concrete poll state with only the correct-transfer bit pending and
`max_endpoint = 1`, so slot 2 is outside the scan. -/
def demoScanState : PollState :=
  { locked := false, istr := ⟨false, false, false, true⟩,
    fnr := ⟨false, false⟩, endpoints := demoScanEndpoints,
    max_endpoint := 1 }

/-- A concrete endpoint configuration for the allocation scan: slot 0
holds a control endpoint type, slot 1 already has its transmit buffer
set, and slots 2 through 7 are fresh. -/
def demoAllocEndpoints : List EndpointState :=
  [{ ep_type := some EndpointType.Control }, { in_buf := some (0, 8) },
   {}, {}, {}, {}, {}, {}]

/-- A concrete endpoint configuration in which every slot already has a
transmit buffer but no type assigned, so an `In` allocation request can
qualify nowhere. -/
def demoFullEndpoints : List EndpointState :=
  List.replicate NUM_ENDPOINTS { in_buf := some (0, 8) }

theorem alloc_ep_mem_ok_iff (next size addr next' : Nat) :
    alloc_ep_mem next size = some (Except.ok addr, next') ↔
      size % 2 = 0 ∧ next + size ≤ MEM_SIZE ∧ addr = next ∧
        next' = next + size := by
  unfold alloc_ep_mem
  split_ifs with h1 h2 <;> simp_all <;> omega

theorem allocRanges_invariant (sizes : List Nat) :
    ∀ next rs final, allocRanges next sizes = some (rs, final) →
      next ≤ final ∧
        ∀ r ∈ rs, next ≤ r.1 ∧ r.1 + r.2 ≤ final ∧ r.1 + r.2 ≤ MEM_SIZE := by
  induction sizes with
  | nil =>
    intro next rs final h
    simp only [allocRanges, Option.some.injEq, Prod.mk.injEq] at h
    obtain ⟨h1, h2⟩ := h
    subst h1
    subst h2
    exact ⟨Nat.le_refl _, by simp⟩
  | cons size rest ih =>
    intro next rs final h
    simp only [allocRanges] at h
    split at h
    case h_1 addr next1 hm =>
      split at h
      case h_1 rs1 fin1 hr =>
        rcases (alloc_ep_mem_ok_iff next size addr next1).mp hm with
          ⟨heven, hfit, haddr, hnext1⟩
        simp only [Option.some.injEq, Prod.mk.injEq] at h
        obtain ⟨h1, h2⟩ := h
        subst h1
        subst h2
        rcases ih next1 rs1 fin1 hr with ⟨hle, hall⟩
        subst haddr hnext1
        refine ⟨by omega, ?_⟩
        intro r hr2
        rcases List.mem_cons.mp hr2 with h0 | h0
        · subst h0; exact ⟨Nat.le_refl _, by simp; omega, by simp; omega⟩
        · rcases hall r h0 with ⟨a, b, c⟩
          exact ⟨by omega, b, c⟩
      case h_2 hr => cases h
    case h_2 hne => cases h

theorem allocRanges_pairwise (sizes : List Nat) :
    ∀ next rs final, allocRanges next sizes = some (rs, final) →
      rs.Pairwise rangesDisjoint := by
  induction sizes with
  | nil =>
    intro next rs final h
    simp only [allocRanges, Option.some.injEq, Prod.mk.injEq] at h
    obtain ⟨h1, h2⟩ := h
    subst h1
    exact List.Pairwise.nil
  | cons size rest ih =>
    intro next rs final h
    simp only [allocRanges] at h
    split at h
    case h_1 addr next1 hm =>
      split at h
      case h_1 rs1 fin1 hr =>
        rcases (alloc_ep_mem_ok_iff next size addr next1).mp hm with
          ⟨heven, hfit, haddr, hnext1⟩
        simp only [Option.some.injEq, Prod.mk.injEq] at h
        obtain ⟨h1, h2⟩ := h
        subst h1
        rcases allocRanges_invariant rest next1 rs1 fin1 hr with ⟨hle, hall⟩
        subst haddr hnext1
        refine List.Pairwise.cons ?_ (ih _ _ _ hr)
        intro r hr2
        rcases hall r hr2 with ⟨a, b, c⟩
        exact Or.inl (by simp; omega)
      case h_2 hr => cases h
    case h_2 hne => cases h


/-- C5: the packet-memory allocator is monotonic and non-overlapping.
Every successful `alloc_ep_mem` call (with an even size, the asserted
caller contract) returns the previous cursor and advances the cursor by
`size`; it fails with `SizeOverflow` exactly when the new cursor would
exceed `MEM_SIZE`; and across any sequence of successful allocations the
returned ranges are pairwise disjoint and each lies within capacity. -/
theorem alloc_ep_mem_monotonic_disjoint
    (next size final : Nat) (sizes : List Nat) (rs : List (Nat × Nat))
    (heven : size % 2 = 0) :
    (next + size ≤ MEM_SIZE →
      alloc_ep_mem next size = some (Except.ok next, next + size)) ∧
    (next + size > MEM_SIZE →
      alloc_ep_mem next size = some (Except.error UsbError.SizeOverflow, next)) ∧
    (allocRanges next sizes = some (rs, final) →
      rs.Pairwise rangesDisjoint ∧ ∀ r ∈ rs, r.1 + r.2 ≤ MEM_SIZE) := by
  refine ⟨?_, ?_, ?_⟩
  · intro hfit
    unfold alloc_ep_mem
    split_ifs with h1 h2
    · omega
    · omega
    · rfl
  · intro hover
    unfold alloc_ep_mem
    split_ifs with h1
    · omega
    · rfl
  · intro h
    refine ⟨allocRanges_pairwise sizes next rs final h, ?_⟩
    intro r hr
    exact ((allocRanges_invariant sizes next rs final h).2 r hr).2.2

/-- Witness for C5 at a concrete input: allocating 6 bytes at cursor 64
returns offset 64 and cursor 70, and the successful sequence of sizes
`[2, 4]` from cursor 64 yields the pairwise disjoint ranges
`[(64, 2), (66, 4)]`. -/
theorem alloc_ep_mem_monotonic_disjoint_witness :
    alloc_ep_mem 64 6 = some (Except.ok 64, 70) ∧
    List.Pairwise rangesDisjoint [(64, 2), (66, 4)] ∧
    ∀ r ∈ [((64 : Nat), (2 : Nat)), (66, 4)], r.1 + r.2 ≤ MEM_SIZE := by
  have h := alloc_ep_mem_monotonic_disjoint 64 6 70 [2, 4]
    [(64, 2), (66, 4)] (by decide)
  have hrun : allocRanges 64 [2, 4] = some ([(64, 2), (66, 4)], 70) := rfl
  have h3 := h.2.2 hrun
  exact ⟨h.1 (by decide), h3.1, h3.2⟩

/-- C9: a failed `alloc_ep_mem` call leaves the cursor unchanged: any
error outcome returns the old cursor, and after a `SizeOverflow` failure
a subsequent smaller allocation that fits still succeeds at the old
cursor. -/
theorem alloc_ep_mem_failure_preserves_cursor
    (next size size' : Nat)
    (heven : size % 2 = 0) (hover : next + size > MEM_SIZE)
    (heven' : size' % 2 = 0) (hfit : next + size' ≤ MEM_SIZE) :
    (∀ sz e nxt, alloc_ep_mem next sz = some (Except.error e, nxt) →
      nxt = next) ∧
    alloc_ep_mem next size = some (Except.error UsbError.SizeOverflow, next) ∧
    alloc_ep_mem next size' = some (Except.ok next, next + size') := by
  refine ⟨?_, ?_, ?_⟩
  · intro sz e nxt h
    unfold alloc_ep_mem at h
    split_ifs at h with h1 h2
    · simp only [Option.some.injEq, Prod.mk.injEq] at h
      exact h.2.symm
    · simp only [Option.some.injEq, Prod.mk.injEq] at h
      exact absurd h.1 (by simp)
  · unfold alloc_ep_mem
    split_ifs with h1
    · omega
    · rfl
  · unfold alloc_ep_mem
    split_ifs with h1 h2
    · omega
    · omega
    · rfl

/-- Witness for C9 at a concrete input: at cursor 510, allocating 4 bytes
overflows the 512-byte capacity and leaves the cursor at 510, after which
allocating 2 bytes succeeds at offset 510. -/
theorem alloc_ep_mem_failure_preserves_cursor_witness :
    alloc_ep_mem 510 4 = some (Except.error UsbError.SizeOverflow, 510) ∧
    alloc_ep_mem 510 2 = some (Except.ok 510, 512) := by
  have h := alloc_ep_mem_failure_preserves_cursor 510 4 2
    (by decide) (by decide) (by decide) (by decide)
  exact ⟨h.2.1, h.2.2⟩

theorem list_set_of_getElem? {α : Type} :
    ∀ (l : List α) (i : Nat) (x : α), l[i]? = some x → l.set i x = l
  | [], i, x, h => by simp at h
  | a :: l, 0, x, h => by
    simp only [List.getElem?_cons_zero, Option.some.injEq] at h
    simp [h]
  | a :: l, i + 1, x, h => by
    simp only [List.getElem?_cons_succ] at h
    simp [list_set_of_getElem? l i x h]

theorem list_getElem!_of_getElem? {α : Type} [Inhabited α] :
    ∀ (l : List α) (i : Nat) (x : α), l[i]? = some x → l[i]! = x
  | [], i, x, h => by simp at h
  | a :: l, 0, x, h => by
    simp only [List.getElem?_cons_zero, Option.some.injEq] at h
    simp [h]
  | a :: l, i + 1, x, h => by
    simp only [List.getElem?_cons_succ] at h
    simp [list_getElem!_of_getElem? l i x h]

theorem list_getElem_bang {α : Type} [Inhabited α] (l : List α) (i : Nat)
    (h : i < l.length) : l[i]! = l[i] :=
  list_getElem!_of_getElem? l i _ (List.getElem?_eq_getElem h)

/-- C2 counterexample: on an endpoint whose receive status is `Stall`,
un-stalling the `Out` direction sets the status to `Valid`, not to `Nak`
as the claim states. -/
theorem set_stalled_unstall_out_counterexample :
    set_stalled [{ stat_rx := EndpointStatus.Stall }]
        ⟨0, EndpointDirection.Out⟩ false =
      some [{ stat_rx := EndpointStatus.Valid }] ∧
    set_stalled [{ stat_rx := EndpointStatus.Stall }]
        ⟨0, EndpointDirection.Out⟩ false ≠
      some [{ stat_rx := EndpointStatus.Nak }] := by
  constructor
  · rfl
  · decide

/-- C2 (amended): `set_stalled(address, stalled)` is a no-op when the
endpoint is already in the requested stall state; otherwise stalling
sets the direction's status to `Stall`, and un-stalling sets `Nak` for
the `In` direction but `Valid` for the `Out` direction. -/
theorem set_stalled_correct (eps : List EndpointState) (a : EndpointAddress)
    (stalled : Bool) (ep : EndpointState) (h : eps[a.index]? = some ep) :
    is_stalled eps a = some (dirStat ep a.dir == EndpointStatus.Stall) ∧
    ((dirStat ep a.dir == EndpointStatus.Stall) = stalled →
      set_stalled eps a stalled = some eps) ∧
    ((dirStat ep a.dir == EndpointStatus.Stall) ≠ stalled →
      (stalled = true → a.dir = EndpointDirection.In →
        set_stalled eps a stalled =
          some (eps.set a.index { ep with stat_tx := EndpointStatus.Stall })) ∧
      (stalled = true → a.dir = EndpointDirection.Out →
        set_stalled eps a stalled =
          some (eps.set a.index { ep with stat_rx := EndpointStatus.Stall })) ∧
      (stalled = false → a.dir = EndpointDirection.In →
        set_stalled eps a stalled =
          some (eps.set a.index { ep with stat_tx := EndpointStatus.Nak })) ∧
      (stalled = false → a.dir = EndpointDirection.Out →
        set_stalled eps a stalled =
          some (eps.set a.index { ep with stat_rx := EndpointStatus.Valid }))) := by
  obtain ⟨i, d⟩ := a
  refine ⟨by simp [is_stalled, h], ?_, ?_⟩
  · intro hcur
    simp [set_stalled, is_stalled, h, hcur]
  · intro hcur
    refine ⟨?_, ?_, ?_, ?_⟩ <;>
      (intro h1 h2
       subst h1
       subst h2
       simp only [ne_eq] at hcur
       simp [set_stalled, is_stalled, h, hcur])

/-- Witness for the amended C2 at a concrete input: a fresh endpoint at
slot 0 is not stalled, and stalling its `In` direction writes `Stall`
into its transmit status. -/
theorem set_stalled_correct_witness :
    is_stalled [({} : EndpointState)] ⟨0, EndpointDirection.In⟩ =
      some false ∧
    set_stalled [({} : EndpointState)] ⟨0, EndpointDirection.In⟩ true =
      some [{ stat_tx := EndpointStatus.Stall }] := by
  have h := set_stalled_correct [({} : EndpointState)]
    ⟨0, EndpointDirection.In⟩ true {} rfl
  constructor
  · simpa using h.1
  · simpa using (h.2.2 (by decide)).1 rfl rfl

/-- C7: a `poll` call while the register guard is already held by
another in-flight `poll` returns `None` and leaves the entire state —
registers and endpoints — unchanged. -/
theorem poll_reentrant (s : PollState) (h : s.locked = true) :
    poll s = (PollResult.None, s) := by
  simp [poll, h]

/-- Witness for C7 at a concrete input: with the guard held and every
interrupt-status bit pending, `poll` still reports `None` and mutates
nothing. -/
theorem poll_reentrant_witness :
    poll { locked := true, istr := ⟨true, true, true, true⟩,
           fnr := ⟨false, false⟩, endpoints := [{}], max_endpoint := 0 } =
      (PollResult.None,
        { locked := true, istr := ⟨true, true, true, true⟩,
          fnr := ⟨false, false⟩, endpoints := [{}], max_endpoint := 0 }) :=
  poll_reentrant _ rfl

/-- C8: `force_reset` without a configured reset capability fails with
`Unsupported` and performs no register action at all; with the
capability configured it records the power-down bit, sets it, drives the
pin low, busy-waits the configured cycle count and restores the prior
power-down bit, returning success; `enable_reset` configures the cycle
count from the system clock frequency. -/
theorem force_reset_correct (s : ResetState) (d : Nat) :
    (s.reset = none →
      force_reset s = (Except.error UsbError.Unsupported, s, [])) ∧
    (s.reset = some d →
      force_reset s =
        (Except.ok (), { s with pin_is_low := true },
          [ResetAction.pdwn true, ResetAction.pin_low, ResetAction.wait d,
            ResetAction.pdwn s.pdwn]) ∧
      (force_reset s).2.1.pdwn = s.pdwn) ∧
    (enable_reset s d).reset = some d := by
  obtain ⟨r, p, pl⟩ := s
  refine ⟨?_, ?_, rfl⟩
  · intro h
    simp only at h
    subst h
    rfl
  · intro h
    simp only at h
    subst h
    exact ⟨rfl, rfl⟩

/-- Witness for C8 at concrete inputs: a driver with no reset capability
fails with `Unsupported` and an empty action trace, and one configured
with a 48 MHz system clock performs exactly the four-step sequence and
restores the power-down bit. -/
theorem force_reset_correct_witness :
    force_reset ⟨none, false, false⟩ =
      (Except.error UsbError.Unsupported, ⟨none, false, false⟩, []) ∧
    force_reset ⟨some 48000000, true, false⟩ =
      (Except.ok (), ⟨some 48000000, true, true⟩,
        [ResetAction.pdwn true, ResetAction.pin_low,
          ResetAction.wait 48000000, ResetAction.pdwn true]) := by
  constructor
  · exact (force_reset_correct ⟨none, false, false⟩ 0).1 rfl
  · exact ((force_reset_correct ⟨some 48000000, true, false⟩ 48000000).2.1
      rfl).1

/-- C1: transient non-availability is a zero-length success, not an
error: a `write` to an endpoint still busy completing a previous
transmission returns 0 bytes, a `read` with no pending data returns 0
bytes, and the only error either operation returns is `InvalidEndpoint`
on a direction mismatch; the example class's result mappings keep even a
`Busy` or `NoData` endpoint outcome a zero-length success. -/
theorem write_read_zero_length_success
    (eps : List EndpointState) (a : EndpointAddress) (buf_len buf_cap : Nat)
    (ep : EndpointState) (h : eps[a.index]? = some ep) :
    (a.dir = EndpointDirection.Out →
      UsbBus.write eps a buf_len =
        some (Except.error UsbError.InvalidEndpoint, eps)) ∧
    (a.dir = EndpointDirection.In →
      UsbBus.read eps a buf_cap =
        some (Except.error UsbError.InvalidEndpoint, eps)) ∧
    (a.dir = EndpointDirection.In → ep.stat_tx = EndpointStatus.Valid →
      UsbBus.write eps a buf_len = some (Except.ok 0, eps)) ∧
    (a.dir = EndpointDirection.Out → ep.ctr_rx = false →
      UsbBus.read eps a buf_cap = some (Except.ok 0, eps)) ∧
    (∀ e eps', UsbBus.write eps a buf_len = some (Except.error e, eps') →
      e = UsbError.InvalidEndpoint ∧ a.dir = EndpointDirection.Out) ∧
    (∀ e eps', UsbBus.read eps a buf_cap = some (Except.error e, eps') →
      e = UsbError.InvalidEndpoint ∧ a.dir = EndpointDirection.In) ∧
    serial_write_result (Except.error UsbError.Busy) = Except.ok 0 ∧
    serial_read_result (Except.error UsbError.NoData) = Except.ok 0 := by
  obtain ⟨i, d⟩ := a
  simp only at h
  refine ⟨?_, ?_, ?_, ?_, ?_, ?_, rfl, rfl⟩
  · intro hd
    subst hd
    simp [UsbBus.write, EndpointAddress.is_in]
  · intro hd
    subst hd
    simp [UsbBus.read, EndpointAddress.is_out]
  · intro hd hbusy
    subst hd
    simp [UsbBus.write, EndpointAddress.is_in, ep_write, hbusy, h,
      list_set_of_getElem? eps i ep h]
  · intro hd hnone
    subst hd
    simp [UsbBus.read, EndpointAddress.is_out, ep_read, hnone, h,
      list_set_of_getElem? eps i ep h]
  · intro e eps' he
    cases d with
    | In =>
      simp [UsbBus.write, EndpointAddress.is_in, ep_write, h] at he
      split at he
      · simp at he
      · rename_i x e2 heq
        split at heq <;> cases heq
    | Out =>
      simp [UsbBus.write, EndpointAddress.is_in] at he
      exact ⟨he.1.symm, rfl⟩
  · intro e eps' he
    cases d with
    | Out =>
      simp [UsbBus.read, EndpointAddress.is_out, ep_read, h] at he
      split at he
      · simp at he
      · rename_i x e2 heq
        split at heq <;> cases heq
    | In =>
      simp [UsbBus.read, EndpointAddress.is_out] at he
      exact ⟨he.1.symm, rfl⟩

/-- Witness for C1 at concrete inputs: a busy `In` endpoint accepts a
write as 0 bytes without error and rejects a read as `InvalidEndpoint`;
a fresh `Out` endpoint with nothing pending answers a read with 0 bytes
and rejects a write as `InvalidEndpoint`. -/
theorem write_read_zero_length_success_witness :
    UsbBus.write [{ stat_tx := EndpointStatus.Valid }]
        ⟨0, EndpointDirection.In⟩ 5 =
      some (Except.ok 0, [{ stat_tx := EndpointStatus.Valid }]) ∧
    UsbBus.read [{ stat_tx := EndpointStatus.Valid }]
        ⟨0, EndpointDirection.In⟩ 3 =
      some (Except.error UsbError.InvalidEndpoint,
        [{ stat_tx := EndpointStatus.Valid }]) ∧
    UsbBus.read [({} : EndpointState)] ⟨0, EndpointDirection.Out⟩ 3 =
      some (Except.ok 0, [({} : EndpointState)]) ∧
    UsbBus.write [({} : EndpointState)] ⟨0, EndpointDirection.Out⟩ 5 =
      some (Except.error UsbError.InvalidEndpoint,
        [({} : EndpointState)]) := by
  have h1 := write_read_zero_length_success
    [{ stat_tx := EndpointStatus.Valid }] ⟨0, EndpointDirection.In⟩ 5 3
    { stat_tx := EndpointStatus.Valid } rfl
  have h2 := write_read_zero_length_success
    [({} : EndpointState)] ⟨0, EndpointDirection.Out⟩ 5 3 {} rfl
  exact ⟨h1.2.2.1 rfl rfl, h1.2.1 rfl, h2.2.2.2.1 rfl rfl, h2.1 rfl⟩

/-- C3: `poll` reports exactly one outcome, chosen by priority — wakeup
(`Resume`/`Suspend`), then bus reset, then suspend, then
transfer-complete, then idle; each branch clears only its own sticky bit
and leaves every lower-priority bit and, except for the scan branch, the
endpoint registers untouched, so pending lower-priority conditions
surface on a subsequent call. -/
theorem poll_priority (s : PollState) (h : s.locked = false) :
    (s.istr.wkup = true →
      ((poll s).1 = PollResult.Resume ∨ (poll s).1 = PollResult.Suspend) ∧
      (poll s).2.istr.wkup = false ∧
      (poll s).2.istr.reset = s.istr.reset ∧
      (poll s).2.istr.susp = s.istr.susp ∧
      (poll s).2.istr.ctr = s.istr.ctr ∧
      (poll s).2.endpoints = s.endpoints) ∧
    (s.istr.wkup = false → s.istr.reset = true →
      (poll s).1 = PollResult.Reset ∧
      (poll s).2.istr.wkup = false ∧
      (poll s).2.istr.reset = false ∧
      (poll s).2.istr.susp = s.istr.susp ∧
      (poll s).2.istr.ctr = s.istr.ctr ∧
      (poll s).2.endpoints = s.endpoints) ∧
    (s.istr.wkup = false → s.istr.reset = false → s.istr.susp = true →
      (poll s).1 = PollResult.Suspend ∧
      (poll s).2.istr.wkup = false ∧
      (poll s).2.istr.reset = false ∧
      (poll s).2.istr.susp = false ∧
      (poll s).2.istr.ctr = s.istr.ctr ∧
      (poll s).2.endpoints = s.endpoints) ∧
    (s.istr.wkup = false → s.istr.reset = false → s.istr.susp = false →
      s.istr.ctr = true →
      (∃ o ic su, (poll s).1 = PollResult.Data o ic su) ∧
      (poll s).2.istr = s.istr) ∧
    (s.istr.wkup = false → s.istr.reset = false → s.istr.susp = false →
      s.istr.ctr = false → poll s = (PollResult.None, s)) := by
  obtain ⟨lk, istr0, fnr0, eps, me⟩ := s
  obtain ⟨w, r, su, c⟩ := istr0
  obtain ⟨dp, dm⟩ := fnr0
  simp only at h
  subst h
  refine ⟨?_, ?_, ?_, ?_, ?_⟩
  · intro hw
    simp only at hw
    subst hw
    cases dp <;> cases dm <;> simp [poll]
  · intro hw hr
    simp only at hw hr
    subst hw
    subst hr
    simp [poll]
  · intro hw hr hs
    simp only at hw hr hs
    subst hw
    subst hr
    subst hs
    simp [poll]
  · intro hw hr hs hc
    simp only at hw hr hs hc
    subst hw
    subst hr
    subst hs
    subst hc
    refine ⟨⟨(ctr_scan (eps.take (me + 1)) 1).1,
             (ctr_scan (eps.take (me + 1)) 1).2.1,
             (ctr_scan (eps.take (me + 1)) 1).2.2.1, ?_⟩, ?_⟩ <;>
      simp [poll]
  · intro hw hr hs hc
    simp only at hw hr hs hc
    subst hw
    subst hr
    subst hs
    subst hc
    simp [poll]

/-- Witness for C3 at a concrete input: with all four sticky bits set at
once, `poll` reports only the wakeup outcome, clears only the wakeup
bit, and leaves the reset, suspend and transfer bits set. -/
theorem poll_priority_witness :
    ((poll { locked := false, istr := ⟨true, true, true, true⟩,
             fnr := ⟨false, false⟩, endpoints := [{}],
             max_endpoint := 0 }).1 = PollResult.Resume ∨
     (poll { locked := false, istr := ⟨true, true, true, true⟩,
             fnr := ⟨false, false⟩, endpoints := [{}],
             max_endpoint := 0 }).1 = PollResult.Suspend) ∧
    (poll { locked := false, istr := ⟨true, true, true, true⟩,
            fnr := ⟨false, false⟩, endpoints := [{}],
            max_endpoint := 0 }).2.istr.wkup = false ∧
    (poll { locked := false, istr := ⟨true, true, true, true⟩,
            fnr := ⟨false, false⟩, endpoints := [{}],
            max_endpoint := 0 }).2.istr.reset = true ∧
    (poll { locked := false, istr := ⟨true, true, true, true⟩,
            fnr := ⟨false, false⟩, endpoints := [{}],
            max_endpoint := 0 }).2.istr.susp = true ∧
    (poll { locked := false, istr := ⟨true, true, true, true⟩,
            fnr := ⟨false, false⟩, endpoints := [{}],
            max_endpoint := 0 }).2.istr.ctr = true := by
  have h := (poll_priority
    { locked := false, istr := ⟨true, true, true, true⟩,
      fnr := ⟨false, false⟩, endpoints := [{}], max_endpoint := 0 } rfl).1 rfl
  exact ⟨h.1, h.2.1, h.2.2.1, h.2.2.2.1, h.2.2.2.2.1⟩

theorem ep_clear_ctr_tx_of_false (ep : EndpointState) (h : ep.ctr_tx = false) :
    { ep with ctr_tx := false } = ep := by
  cases ep
  simp_all

theorem ctr_scan_eq (l : List EndpointState) : ∀ bit : Nat,
    ctr_scan l bit =
      (mask_scan (fun ep => ep.ctr_rx) l bit,
       mask_scan (fun ep => ep.ctr_tx) l bit,
       mask_scan (fun ep => ep.ctr_rx && ep.setup) l bit,
       l.map (fun ep => { ep with ctr_tx := false })) := by
  induction l with
  | nil => intro bit; rfl
  | cons ep rest ih =>
    intro bit
    obtain ⟨t, ib, ob, stx, srx, crx, ctx, su, rc⟩ := ep
    simp only [ctr_scan, mask_scan, ih, List.map_cons]
    cases ctx <;> cases crx <;> simp

theorem mask_scan_testBit_lt (cond : EndpointState → Bool) :
    ∀ (l : List EndpointState) (n k : Nat), k < n →
      (mask_scan cond l (2 ^ n)).testBit k = false := by
  intro l
  induction l with
  | nil =>
    intro n k hk
    simp [mask_scan]
  | cons ep rest ih =>
    intro n k hk
    have h2 : (2 : Nat) ^ n * 2 = 2 ^ (n + 1) := by ring
    simp only [mask_scan, h2]
    cases hc : cond ep
    · simp only [Bool.false_eq_true, if_neg]
      exact ih (n + 1) k (by omega)
    · simp only [if_pos]
      rw [Nat.testBit_lor, ih (n + 1) k (by omega),
        Nat.testBit_two_pow_of_ne (by omega : n ≠ k)]
      rfl

theorem mask_scan_testBit_ge (cond : EndpointState → Bool) :
    ∀ (l : List EndpointState) (n m : Nat), n + l.length ≤ m →
      (mask_scan cond l (2 ^ n)).testBit m = false := by
  intro l
  induction l with
  | nil =>
    intro n m hm
    simp [mask_scan]
  | cons ep rest ih =>
    intro n m hm
    simp only [List.length_cons] at hm
    have h2 : (2 : Nat) ^ n * 2 = 2 ^ (n + 1) := by ring
    simp only [mask_scan, h2]
    cases hc : cond ep
    · simp only [Bool.false_eq_true, if_neg]
      exact ih (n + 1) m (by omega)
    · simp only [if_pos]
      rw [Nat.testBit_lor, ih (n + 1) m (by omega),
        Nat.testBit_two_pow_of_ne (by omega : n ≠ m)]
      rfl

theorem mask_scan_testBit_at (cond : EndpointState → Bool) :
    ∀ (l : List EndpointState) (n k : Nat) (hk : k < l.length),
      (mask_scan cond l (2 ^ n)).testBit (n + k) = cond (l.get ⟨k, hk⟩) := by
  intro l
  induction l with
  | nil =>
    intro n k hk
    simp at hk
  | cons ep rest ih =>
    intro n k hk
    have h2 : (2 : Nat) ^ n * 2 = 2 ^ (n + 1) := by ring
    simp only [mask_scan, h2]
    cases k with
    | zero =>
      simp only [List.get, Nat.add_zero]
      cases hc : cond ep
      · simp only [Bool.false_eq_true, if_neg]
        exact mask_scan_testBit_lt cond rest (n + 1) n (by omega)
      · simp only [if_pos]
        rw [Nat.testBit_lor,
          mask_scan_testBit_lt cond rest (n + 1) n (by omega),
          Nat.testBit_two_pow_self]
        rfl
    | succ k' =>
      have hk' : k' < rest.length := by
        simp only [List.length_cons] at hk
        omega
      have hidx : n + (k' + 1) = (n + 1) + k' := by omega
      rw [hidx]
      cases hc : cond ep
      · simp only [Bool.false_eq_true, if_neg]
        exact ih (n + 1) k' hk'
      · simp only [if_pos]
        rw [Nat.testBit_lor, ih (n + 1) k' hk',
          Nat.testBit_two_pow_of_ne (by omega : n ≠ (n + 1) + k')]
        simp

theorem mask_scan_testBit_at_one (cond : EndpointState → Bool)
    (l : List EndpointState) (k : Nat) (hk : k < l.length) :
    (mask_scan cond l 1).testBit k = cond (l.get ⟨k, hk⟩) := by
  have h := mask_scan_testBit_at cond l 0 k hk
  simpa using h

theorem mask_scan_testBit_ge_one (cond : EndpointState → Bool)
    (l : List EndpointState) (m : Nat) (hm : l.length ≤ m) :
    (mask_scan cond l 1).testBit m = false := by
  have h := mask_scan_testBit_ge cond l 0 m (by omega)
  simpa using h

theorem poll_data_eq (s : PollState)
    (hl : s.locked = false) (hw : s.istr.wkup = false)
    (hr : s.istr.reset = false) (hs : s.istr.susp = false)
    (hc : s.istr.ctr = true) :
    poll s =
      (PollResult.Data
        (mask_scan (fun ep => ep.ctr_rx)
          (s.endpoints.take (s.max_endpoint + 1)) 1)
        (mask_scan (fun ep => ep.ctr_tx)
          (s.endpoints.take (s.max_endpoint + 1)) 1)
        (mask_scan (fun ep => ep.ctr_rx && ep.setup)
          (s.endpoints.take (s.max_endpoint + 1)) 1),
       { s with endpoints :=
          ((s.endpoints.take (s.max_endpoint + 1)).map
            (fun ep => { ep with ctr_tx := false })
            ++ s.endpoints.drop (s.max_endpoint + 1)) }) := by
  obtain ⟨lk, ⟨w, r, su, c⟩, fnr0, eps, me⟩ := s
  simp only at hl hw hr hs hc
  subst hl
  subst hw
  subst hr
  subst hs
  subst hc
  simp [poll, ctr_scan_eq]

/-- C6: when `poll` takes the correct-transfer branch it scans slots 0
through `max_endpoint`, reading each slot's register once, and builds
three bitmasks keyed by slot index: bit `k` of the receive mask is slot
`k`'s `ctr_rx` flag, bit `k` of the transmit mask is its `ctr_tx` flag,
bit `k` of the setup mask is `ctr_rx && setup` (so the setup mask is a
subset of the receive mask), no mask has bits beyond the scanned range;
each observed `ctr_tx` flag is cleared immediately while `ctr_rx` flags
and all slots beyond `max_endpoint` are left untouched. -/
theorem poll_data_masks (s : PollState) (k : Nat)
    (hl : s.locked = false) (hw : s.istr.wkup = false)
    (hr : s.istr.reset = false) (hs : s.istr.susp = false)
    (hc : s.istr.ctr = true)
    (hme : s.max_endpoint < s.endpoints.length)
    (hk : k ≤ s.max_endpoint) :
    ∃ o ic su eps',
      poll s = (PollResult.Data o ic su, { s with endpoints := eps' }) ∧
      o.testBit k = (s.endpoints[k]!).ctr_rx ∧
      ic.testBit k = (s.endpoints[k]!).ctr_tx ∧
      su.testBit k = ((s.endpoints[k]!).ctr_rx && (s.endpoints[k]!).setup) ∧
      (∀ m, su.testBit m = true → o.testBit m = true) ∧
      (∀ m, s.max_endpoint < m → o.testBit m = false ∧
        ic.testBit m = false ∧ su.testBit m = false) ∧
      eps'.length = s.endpoints.length ∧
      eps'[k]! = { s.endpoints[k]! with ctr_tx := false } ∧
      (∀ j, s.max_endpoint < j → j < s.endpoints.length →
        eps'[j]! = s.endpoints[j]!) := by
  have hkl : k < s.endpoints.length := Nat.lt_of_le_of_lt hk hme
  have hTlen : (s.endpoints.take (s.max_endpoint + 1)).length
      = s.max_endpoint + 1 := by
    simp only [List.length_take]
    omega
  have hkT : k < (s.endpoints.take (s.max_endpoint + 1)).length := by
    omega
  have hgetk : (s.endpoints.take (s.max_endpoint + 1)).get ⟨k, hkT⟩ =
      s.endpoints[k]! := by
    rw [getElem!_pos s.endpoints k hkl]
    simp [List.get_eq_getElem, List.getElem_take]
  refine ⟨_, _, _, _, poll_data_eq s hl hw hr hs hc,
    ?_, ?_, ?_, ?_, ?_, ?_, ?_, ?_⟩
  · rw [mask_scan_testBit_at_one _ _ k hkT, hgetk]
  · rw [mask_scan_testBit_at_one _ _ k hkT, hgetk]
  · rw [mask_scan_testBit_at_one _ _ k hkT, hgetk]
  · intro m hm
    by_cases hmT : m < (s.endpoints.take (s.max_endpoint + 1)).length
    · rw [mask_scan_testBit_at_one _ _ m hmT] at hm
      rw [mask_scan_testBit_at_one _ _ m hmT]
      exact (Bool.and_eq_true _ _ |>.mp hm).1
    · rw [mask_scan_testBit_ge_one _ _ m (by omega)] at hm
      cases hm
  · intro m hm
    have hge : (s.endpoints.take (s.max_endpoint + 1)).length ≤ m := by
      rw [hTlen]
      omega
    exact ⟨mask_scan_testBit_ge_one _ _ m hge,
      mask_scan_testBit_ge_one _ _ m hge,
      mask_scan_testBit_ge_one _ _ m hge⟩
  · simp only [List.length_append, List.length_map, List.length_take,
      List.length_drop]
    omega
  · have hkm : k < ((s.endpoints.take (s.max_endpoint + 1)).map
        (fun (ep : EndpointState) => { ep with ctr_tx := false })).length := by
      simp only [List.length_map]
      omega
    have hlen2 : k < (((s.endpoints.take (s.max_endpoint + 1)).map
        (fun (ep : EndpointState) => { ep with ctr_tx := false }))
        ++ s.endpoints.drop (s.max_endpoint + 1)).length := by
      simp only [List.length_append, List.length_map, List.length_take,
        List.length_drop]
      omega
    rw [list_getElem_bang _ k hlen2, getElem!_pos s.endpoints k hkl,
      List.getElem_append_left hkm, List.getElem_map]
    simp [List.getElem_take]
  · intro j hj1 hj2
    have hmaplen : ((s.endpoints.take (s.max_endpoint + 1)).map
        (fun (ep : EndpointState) => { ep with ctr_tx := false })).length
        = s.max_endpoint + 1 := by
      simp only [List.length_map]
      exact hTlen
    have hlen2 : j < (((s.endpoints.take (s.max_endpoint + 1)).map
        (fun (ep : EndpointState) => { ep with ctr_tx := false }))
        ++ s.endpoints.drop (s.max_endpoint + 1)).length := by
      simp only [List.length_append, List.length_map, List.length_take,
        List.length_drop]
      omega
    rw [list_getElem_bang _ j hlen2, getElem!_pos s.endpoints j hj2,
      List.getElem_append_right (by rw [hmaplen]; omega)]
    rw [List.getElem_drop]
    congr 1
    rw [hmaplen]
    omega

/-- Witness for C6 at a concrete input: with a setup packet on slot 0,
a completed transmission on slot 1 and `max_endpoint = 1`, the scan
reports slot 0 in the receive and setup masks, clears slot 1's
transmit flag, and leaves slot 2 (outside the scan) untouched. -/
theorem poll_data_masks_witness :
    ∃ o ic su eps',
      poll demoScanState =
        (PollResult.Data o ic su, { demoScanState with endpoints := eps' }) ∧
      o.testBit 0 = (demoScanState.endpoints[0]!).ctr_rx ∧
      ic.testBit 0 = (demoScanState.endpoints[0]!).ctr_tx ∧
      su.testBit 0 = ((demoScanState.endpoints[0]!).ctr_rx &&
        (demoScanState.endpoints[0]!).setup) ∧
      (∀ m, su.testBit m = true → o.testBit m = true) ∧
      (∀ m, demoScanState.max_endpoint < m → o.testBit m = false ∧
        ic.testBit m = false ∧ su.testBit m = false) ∧
      eps'.length = demoScanState.endpoints.length ∧
      eps'[0]! = { demoScanState.endpoints[0]! with ctr_tx := false } ∧
      (∀ j, demoScanState.max_endpoint < j →
        j < demoScanState.endpoints.length →
        eps'[j]! = demoScanState.endpoints[j]!) :=
  poll_data_masks demoScanState 0 rfl rfl rfl rfl rfl (by decide) (by decide)

theorem mark_ep_in_buf (t : EndpointType) (ep : EndpointState) :
    (mark_ep t ep).in_buf = ep.in_buf := by
  obtain ⟨ty, ib, ob, stx, srx, crx, ctx, su, rc⟩ := ep
  cases ty <;> simp [mark_ep, set_ep_type]

theorem mark_ep_out_buf (t : EndpointType) (ep : EndpointState) :
    (mark_ep t ep).out_buf = ep.out_buf := by
  obtain ⟨ty, ib, ob, stx, srx, crx, ctx, su, rc⟩ := ep
  cases ty <;> simp [mark_ep, set_ep_type]

theorem mark_ep_type (t : EndpointType) (ep : EndpointState) :
    (mark_ep t ep).ep_type = ep.ep_type ∨
      (ep.ep_type = none ∧ (mark_ep t ep).ep_type = some t) := by
  obtain ⟨ty, ib, ob, stx, srx, crx, ctx, su, rc⟩ := ep
  cases ty
  · exact Or.inr ⟨rfl, rfl⟩
  · exact Or.inl rfl

theorem mark_ep_type_isSome (t : EndpointType) (ep : EndpointState) :
    (mark_ep t ep).ep_type.isSome = true := by
  obtain ⟨ty, ib, ob, stx, srx, crx, ctx, su, rc⟩ := ep
  cases ty <;> simp [mark_ep, set_ep_type]

theorem mark_ep_type_of_none (t : EndpointType) (ep : EndpointState)
    (h : ep.ep_type = none) : (mark_ep t ep).ep_type = some t := by
  obtain ⟨ty, ib, ob, stx, srx, crx, ctx, su, rc⟩ := ep
  simp only at h
  subst h
  rfl

theorem qualifies_mark_ep (d : EndpointDirection) (t : EndpointType)
    (ep : EndpointState) :
    qualifies d t (mark_ep t ep) = qualifies d t ep := by
  obtain ⟨ty, ib, ob, stx, srx, crx, ctx, su, rc⟩ := ep
  cases ty <;>
    simp [mark_ep, set_ep_type, qualifies, EndpointState.is_in_buf_set,
      EndpointState.is_out_buf_set]

theorem mark_scanned_eq (t : EndpointType) (eps : List EndpointState)
    (i : Nat) (ep : EndpointState) (h : eps[i]? = some ep) :
    mark_scanned t eps i = eps.set i (mark_ep t ep) := by
  obtain ⟨ty, ib, ob, stx, srx, crx, ctx, su, rc⟩ := ep
  simp only [mark_scanned, h]
  cases ty
  · simp [mark_ep]
  · simp only [mark_ep]
    rw [list_set_of_getElem? eps i _ h]
    simp

theorem mark_scanned_length (t : EndpointType) (eps : List EndpointState)
    (i : Nat) : (mark_scanned t eps i).length = eps.length := by
  unfold mark_scanned
  split
  · split_ifs <;> simp [List.length_set]
  · rfl

theorem mark_scanned_getElem_ne (t : EndpointType)
    (eps : List EndpointState) (i j : Nat) (hij : i ≠ j) :
    (mark_scanned t eps i)[j]? = eps[j]? := by
  unfold mark_scanned
  split
  · split_ifs
    · exact List.getElem?_set_ne hij
    · rfl
  · rfl

theorem mark_scanned_getElem_self (t : EndpointType)
    (eps : List EndpointState) (i : Nat) (ep : EndpointState)
    (h : eps[i]? = some ep) :
    (mark_scanned t eps i)[i]? = some (mark_ep t ep) := by
  rw [mark_scanned_eq t eps i ep h]
  exact List.getElem?_set_self (List.getElem?_eq_some.mp h).1

theorem foldl_mark_length (t : EndpointType) :
    ∀ (pre : List Nat) (eps : List EndpointState),
      (pre.foldl (mark_scanned t) eps).length = eps.length := by
  intro pre
  induction pre with
  | nil => intro eps; rfl
  | cons i pre' ih =>
    intro eps
    simp only [List.foldl_cons]
    rw [ih, mark_scanned_length]

theorem foldl_mark_getElem (t : EndpointType) :
    ∀ (pre : List Nat) (eps : List EndpointState) (j : Nat)
      (ep : EndpointState), eps[j]? = some ep →
      ∃ ep', (pre.foldl (mark_scanned t) eps)[j]? = some ep' ∧
        ep'.in_buf = ep.in_buf ∧ ep'.out_buf = ep.out_buf ∧
        (∀ d, qualifies d t ep' = qualifies d t ep) ∧
        (ep'.ep_type = ep.ep_type ∨
          (ep.ep_type = none ∧ ep'.ep_type = some t)) ∧
        (j ∈ pre → ep.ep_type = none → ep'.ep_type = some t) := by
  intro pre
  induction pre with
  | nil =>
    intro eps j ep h
    exact ⟨ep, h, rfl, rfl, fun d => rfl, Or.inl rfl, by simp⟩
  | cons i pre' ih =>
    intro eps j ep h
    simp only [List.foldl_cons]
    by_cases hij : i = j
    · subst hij
      obtain ⟨ep', h2, hib, hob, hq, hty, hmem⟩ :=
        ih (mark_scanned t eps i) i (mark_ep t ep)
          (mark_scanned_getElem_self t eps i ep h)
      refine ⟨ep', h2, ?_, ?_, ?_, ?_, ?_⟩
      · rw [hib, mark_ep_in_buf]
      · rw [hob, mark_ep_out_buf]
      · intro d
        rw [hq d, qualifies_mark_ep]
      · rcases hty with h3 | ⟨h3, h4⟩
        · rcases mark_ep_type t ep with h5 | ⟨h5, h6⟩
          · exact Or.inl (h3.trans h5)
          · exact Or.inr ⟨h5, h3.trans h6⟩
        · exact absurd (h3 ▸ mark_ep_type_isSome t ep) (by simp)
      · intro hmem2 hnone
        have h5 : (mark_ep t ep).ep_type = some t :=
          mark_ep_type_of_none t ep hnone
        rcases hty with h3 | ⟨h3, h4⟩
        · exact h3.trans h5
        · exact absurd (h3 ▸ mark_ep_type_isSome t ep) (by simp)
    · have h1 : (mark_scanned t eps i)[j]? = some ep := by
        rw [mark_scanned_getElem_ne t eps i j hij]
        exact h
      obtain ⟨ep', h2, hib, hob, hq, hty, hmem⟩ :=
        ih (mark_scanned t eps i) j ep h1
      refine ⟨ep', h2, hib, hob, hq, hty, ?_⟩
      intro hmem2 hnone
      rcases List.mem_cons.mp hmem2 with h3 | h3
      · exact absurd h3.symm hij
      · exact hmem h3 hnone

theorem alloc_ep_loop_skip (d : EndpointDirection) (t : EndpointType)
    (mps index : Nat) (rest : List Nat) (eps : List EndpointState)
    (next : Nat) (ep : EndpointState)
    (h : eps[index]? = some ep) (hq : qualifies d t ep = false) :
    alloc_ep_loop d t mps (index :: rest) eps next =
      alloc_ep_loop d t mps rest (mark_scanned t eps index) next := by
  obtain ⟨ty, ib, ob, stx, srx, crx, ctx, su, rc⟩ := ep
  cases ty with
  | none =>
    cases d with
    | In =>
      cases ib with
      | none => simp [qualifies, EndpointState.is_in_buf_set] at hq
      | some p =>
        simp [alloc_ep_loop, h, mark_scanned, set_ep_type,
          EndpointState.is_in_buf_set]
    | Out =>
      cases ob with
      | none => simp [qualifies, EndpointState.is_out_buf_set] at hq
      | some p =>
        simp [alloc_ep_loop, h, mark_scanned, set_ep_type,
          EndpointState.is_out_buf_set]
  | some t0 =>
    by_cases hts : t0 = t
    · subst hts
      cases d with
      | In =>
        cases ib with
        | none => simp [qualifies, EndpointState.is_in_buf_set] at hq
        | some p =>
          simp only [alloc_ep_loop, h, mark_scanned]
          simp [EndpointState.is_in_buf_set]
      | Out =>
        cases ob with
        | none => simp [qualifies, EndpointState.is_out_buf_set] at hq
        | some p =>
          simp only [alloc_ep_loop, h, mark_scanned]
          simp [EndpointState.is_out_buf_set]
    · simp [alloc_ep_loop, h, mark_scanned, hts]

theorem alloc_ep_loop_hit_in (t : EndpointType) (mps index : Nat)
    (rest : List Nat) (eps : List EndpointState) (next : Nat)
    (ep : EndpointState) (h : eps[index]? = some ep)
    (hq : qualifies EndpointDirection.In t ep = true) :
    alloc_ep_loop EndpointDirection.In t mps (index :: rest) eps next =
      (match alloc_ep_mem next mps with
       | none => none
       | some (Except.error e, next') =>
         some (Except.error e, mark_scanned t eps index, next')
       | some (Except.ok addr, next') =>
         some (Except.ok ⟨index, EndpointDirection.In⟩,
           (mark_scanned t eps index).set index
             (set_in_buf (mark_ep t ep) addr mps), next')) := by
  obtain ⟨ty, ib, ob, stx, srx, crx, ctx, su, rc⟩ := ep
  cases ib with
  | some p => simp [qualifies, EndpointState.is_in_buf_set] at hq
  | none =>
    cases ty with
    | none =>
      simp [alloc_ep_loop, h, mark_scanned, mark_ep, set_ep_type,
        EndpointState.is_in_buf_set]
    | some t0 =>
      have ht : t0 = t := by
        simp [qualifies, EndpointState.is_in_buf_set] at hq
        exact hq
      subst ht
      simp [alloc_ep_loop, h, mark_scanned, mark_ep,
        EndpointState.is_in_buf_set, list_set_of_getElem? eps index _ h]

theorem alloc_ep_loop_hit_out (t : EndpointType) (mps index : Nat)
    (rest : List Nat) (eps : List EndpointState) (next : Nat)
    (ep : EndpointState) (h : eps[index]? = some ep)
    (hq : qualifies EndpointDirection.Out t ep = true) :
    alloc_ep_loop EndpointDirection.Out t mps (index :: rest) eps next =
      (match calculate_count_rx mps with
       | Except.error e => some (Except.error e, mark_scanned t eps index, next)
       | Except.ok (out_size, bits) =>
         match alloc_ep_mem next out_size with
         | none => none
         | some (Except.error e, next') =>
           some (Except.error e, mark_scanned t eps index, next')
         | some (Except.ok addr, next') =>
           some (Except.ok ⟨index, EndpointDirection.Out⟩,
             (mark_scanned t eps index).set index
               (set_out_buf (mark_ep t ep) addr (out_size, bits)), next')) := by
  obtain ⟨ty, ib, ob, stx, srx, crx, ctx, su, rc⟩ := ep
  cases ob with
  | some p => simp [qualifies, EndpointState.is_out_buf_set] at hq
  | none =>
    cases ty with
    | none =>
      simp [alloc_ep_loop, h, mark_scanned, mark_ep, set_ep_type,
        EndpointState.is_out_buf_set]
    | some t0 =>
      have ht : t0 = t := by
        simp [qualifies, EndpointState.is_out_buf_set] at hq
        exact hq
      subst ht
      simp [alloc_ep_loop, h, mark_scanned, mark_ep,
        EndpointState.is_out_buf_set, list_set_of_getElem? eps index _ h]

theorem alloc_ep_loop_consume_skips (d : EndpointDirection) (t : EndpointType)
    (mps : Nat) :
    ∀ (pre : List Nat) (eps : List EndpointState) (next : Nat),
      (∀ j ∈ pre, ∃ ep, eps[j]? = some ep ∧ qualifies d t ep = false) →
      ∀ L2, alloc_ep_loop d t mps (pre ++ L2) eps next =
        alloc_ep_loop d t mps L2 (pre.foldl (mark_scanned t) eps) next := by
  intro pre
  induction pre with
  | nil =>
    intro eps next hpre L2
    rfl
  | cons i pre' ih =>
    intro eps next hpre L2
    obtain ⟨ep, hep, hqf⟩ := hpre i (by simp)
    simp only [List.cons_append, List.foldl_cons]
    rw [alloc_ep_loop_skip d t mps i (pre' ++ L2) eps next ep hep hqf]
    apply ih
    intro j hj
    obtain ⟨epj, hepj, hqj⟩ := hpre j (List.mem_cons_of_mem i hj)
    by_cases hij : i = j
    · subst hij
      refine ⟨mark_ep t epj, mark_scanned_getElem_self t eps i epj hepj, ?_⟩
      rw [qualifies_mark_ep]
      exact hqj
    · refine ⟨epj, ?_, hqj⟩
      rw [mark_scanned_getElem_ne t eps i j hij]
      exact hepj

theorem alloc_ep_loop_all_skip (d : EndpointDirection) (t : EndpointType)
    (mps : Nat) (L : List Nat) (eps : List EndpointState) (next : Nat)
    (hall : ∀ j ∈ L, ∃ ep, eps[j]? = some ep ∧ qualifies d t ep = false) :
    alloc_ep_loop d t mps L eps next =
      some (Except.error UsbError.EndpointOverflow,
        L.foldl (mark_scanned t) eps, next) := by
  have h := alloc_ep_loop_consume_skips d t mps L eps next hall []
  simpa using h

theorem calculate_count_rx_even (size sz bits : Nat)
    (h : calculate_count_rx size = Except.ok (sz, bits)) : sz % 2 = 0 := by
  unfold calculate_count_rx at h
  split_ifs at h with h1 h2
  · simp only [Except.ok.injEq, Prod.mk.injEq] at h
    obtain ⟨h3, h4⟩ := h
    omega
  · simp only [Except.ok.injEq, Prod.mk.injEq] at h
    obtain ⟨h3, h4⟩ := h
    omega

theorem alloc_ep_hit_outcome_of (d : EndpointDirection) (t : EndpointType)
    (mps next i : Nat) (eps E : List EndpointState)
    (addr_arg : Option EndpointAddress) (rest : List Nat)
    (ep' : EndpointState)
    (heq : alloc_ep d addr_arg t mps eps next =
      alloc_ep_loop d t mps (i :: rest) E next)
    (hE : E[i]? = some ep')
    (hq' : qualifies d t ep' = true)
    (hlenE : E.length = eps.length)
    (hib : ep'.in_buf = (eps[i]!).in_buf)
    (hob : ep'.out_buf = (eps[i]!).out_buf)
    (hil : i < eps.length) :
    alloc_ep_hit_outcome d t mps addr_arg i next eps := by
  have hsetlen : i < (mark_scanned t E i).length := by
    rw [mark_scanned_length, hlenE]
    exact hil
  cases d with
  | In =>
    simp only [alloc_ep_hit_outcome]
    constructor
    · intro heven hfit
      have hmem_ok : alloc_ep_mem next mps =
          some (Except.ok next, next + mps) := by
        unfold alloc_ep_mem
        split_ifs with c1 c2
        · omega
        · omega
        · rfl
      refine ⟨(mark_scanned t E i).set i
        (set_in_buf (mark_ep t ep') next mps), ?_, ?_, ?_, ?_⟩
      · rw [heq, alloc_ep_loop_hit_in t mps i rest E next ep' hE hq',
          hmem_ok]
      · rw [List.length_set, mark_scanned_length, hlenE]
      · rw [list_getElem!_of_getElem? _ i _
          (List.getElem?_set_self hsetlen)]
        simp [set_in_buf]
      · rw [list_getElem!_of_getElem? _ i _
          (List.getElem?_set_self hsetlen)]
        simp only [set_in_buf]
        rw [mark_ep_out_buf]
        exact hob
    · intro heven hover
      have hmem_err : alloc_ep_mem next mps =
          some (Except.error UsbError.SizeOverflow, next) := by
        unfold alloc_ep_mem
        split_ifs with c1
        · omega
        · rfl
      exact ⟨mark_scanned t E i, by
        rw [heq, alloc_ep_loop_hit_in t mps i rest E next ep' hE hq',
          hmem_err]⟩
  | Out =>
    simp only [alloc_ep_hit_outcome]
    constructor
    · intro out_size bits hcalc
      have heven : out_size % 2 = 0 :=
        calculate_count_rx_even mps out_size bits hcalc
      constructor
      · intro hfit
        have hmem_ok : alloc_ep_mem next out_size =
            some (Except.ok next, next + out_size) := by
          unfold alloc_ep_mem
          split_ifs with c1 c2
          · omega
          · omega
          · rfl
        refine ⟨(mark_scanned t E i).set i
          (set_out_buf (mark_ep t ep') next (out_size, bits)), ?_, ?_, ?_, ?_⟩
        · rw [heq, alloc_ep_loop_hit_out t mps i rest E next ep' hE hq',
            hcalc]
          dsimp only
          rw [hmem_ok]
        · rw [List.length_set, mark_scanned_length, hlenE]
        · rw [list_getElem!_of_getElem? _ i _
            (List.getElem?_set_self hsetlen)]
          simp [set_out_buf]
        · rw [list_getElem!_of_getElem? _ i _
            (List.getElem?_set_self hsetlen)]
          simp only [set_out_buf]
          rw [mark_ep_in_buf]
          exact hib
      · intro hover
        have hmem_err : alloc_ep_mem next out_size =
            some (Except.error UsbError.SizeOverflow, next) := by
          unfold alloc_ep_mem
          split_ifs with c1
          · omega
          · rfl
        exact ⟨mark_scanned t E i, by
          rw [heq, alloc_ep_loop_hit_out t mps i rest E next ep' hE hq',
            hcalc]
          dsimp only
          rw [hmem_err]⟩
    · intro e hcalc
      exact ⟨mark_scanned t E i, by
        rw [heq, alloc_ep_loop_hit_out t mps i rest E next ep' hE hq',
          hcalc]⟩

/-- C4: the `alloc_ep` scan covers exactly the explicitly addressed slot
when an address is given and otherwise all non-zero slots in ascending
order; slots with a conflicting type or an already-set descriptor for
the requested direction are skipped; the first qualifying slot gets
packet memory reserved (exactly `max_packet_size` bytes for `In`, the
block-encoding rounded size for `Out`), its descriptor recorded and its
address returned; with no qualifying slot the call fails with
`EndpointOverflow`, and allocator size-overflows propagate. -/
theorem alloc_ep_scan_correct (d : EndpointDirection) (t : EndpointType)
    (mps next i : Nat) (eps : List EndpointState) (a : EndpointAddress)
    (hlen : eps.length = NUM_ENDPOINTS) :
    (1 ≤ i → i < NUM_ENDPOINTS → qualifies d t (eps[i]!) = true →
      (∀ j, 1 ≤ j → j < i → qualifies d t (eps[j]!) = false) →
      alloc_ep_hit_outcome d t mps none i next eps) ∧
    ((∀ j, 1 ≤ j → j < NUM_ENDPOINTS → qualifies d t (eps[j]!) = false) →
      ∃ eps', alloc_ep d none t mps eps next =
        some (Except.error UsbError.EndpointOverflow, eps', next)) ∧
    (a.index < NUM_ENDPOINTS →
      (qualifies d t (eps[a.index]!) = true →
        alloc_ep_hit_outcome d t mps (some a) a.index next eps) ∧
      (qualifies d t (eps[a.index]!) = false →
        ∃ eps', alloc_ep d (some a) t mps eps next =
          some (Except.error UsbError.EndpointOverflow, eps', next))) := by
  have hN : NUM_ENDPOINTS = 8 := rfl
  have hget : ∀ j, j < NUM_ENDPOINTS → eps[j]? = some (eps[j]!) := by
    intro j hj
    have hjl : j < eps.length := by omega
    rw [list_getElem_bang eps j hjl]
    exact List.getElem?_eq_some.mpr ⟨hjl, rfl⟩
  refine ⟨?_, ?_, ?_⟩
  · intro hi1 hi2 hq hskip
    have hsplit : List.range' 1 (NUM_ENDPOINTS - 1) =
        List.range' 1 (i - 1) ++
          (i :: List.range' (i + 1) (NUM_ENDPOINTS - i - 1)) := by
      have e1 := List.range'_append 1 (i - 1) (NUM_ENDPOINTS - i) 1
      have g1 : 1 + 1 * (i - 1) = i := by omega
      have g2 : NUM_ENDPOINTS - i + (i - 1) = NUM_ENDPOINTS - 1 := by omega
      rw [g1, g2] at e1
      have g3 : NUM_ENDPOINTS - i = (NUM_ENDPOINTS - i - 1) + 1 := by omega
      rw [g3, List.range'_succ] at e1
      exact e1.symm
    have hpre : ∀ j ∈ List.range' 1 (i - 1),
        ∃ ep, eps[j]? = some ep ∧ qualifies d t ep = false := by
      intro j hj
      rw [List.mem_range'_1] at hj
      have h1 : 1 ≤ j := hj.1
      have h2 : j < i := by omega
      exact ⟨eps[j]!, hget j (by omega), hskip j h1 h2⟩
    have heq : alloc_ep d none t mps eps next =
        alloc_ep_loop d t mps
          (i :: List.range' (i + 1) (NUM_ENDPOINTS - i - 1))
          ((List.range' 1 (i - 1)).foldl (mark_scanned t) eps) next := by
      show alloc_ep_loop d t mps (List.range' 1 (NUM_ENDPOINTS - 1))
        eps next = _
      rw [hsplit]
      exact alloc_ep_loop_consume_skips d t mps (List.range' 1 (i - 1)) eps next
        hpre _
    obtain ⟨ep', hE, hib, hob, hqd, hty, hm⟩ :=
      foldl_mark_getElem t (List.range' 1 (i - 1)) eps i (eps[i]!)
        (hget i hi2)
    exact alloc_ep_hit_outcome_of d t mps next i eps _ none _ ep' heq hE
      (by rw [hqd d]; exact hq) (foldl_mark_length t _ eps) hib hob
      (by omega)
  · intro hall
    have hall' : ∀ j ∈ List.range' 1 (NUM_ENDPOINTS - 1),
        ∃ ep, eps[j]? = some ep ∧ qualifies d t ep = false := by
      intro j hj
      rw [List.mem_range'_1] at hj
      have h1 : 1 ≤ j := hj.1
      have h2 : j < NUM_ENDPOINTS := by omega
      exact ⟨eps[j]!, hget j h2, hall j h1 h2⟩
    exact ⟨_, alloc_ep_loop_all_skip d t mps _ eps next hall'⟩
  · intro hai
    constructor
    · intro hq
      have heq : alloc_ep d (some a) t mps eps next =
          alloc_ep_loop d t mps (a.index :: []) eps next := rfl
      exact alloc_ep_hit_outcome_of d t mps next a.index eps eps (some a) []
        (eps[a.index]!) heq (hget a.index hai) hq rfl rfl rfl (by omega)
    · intro hq
      have heq : alloc_ep d (some a) t mps eps next =
          alloc_ep_loop d t mps [a.index] eps next := rfl
      rw [heq, alloc_ep_loop_skip d t mps a.index [] eps next (eps[a.index]!)
        (hget a.index hai) hq]
      exact ⟨mark_scanned t eps a.index, rfl⟩

/-- Witness for C4 at a concrete input: with slot 0 typed `Control`,
slot 1's transmit buffer taken and slot 2 fresh, an `In`-`Bulk`
allocation of 8 bytes from cursor 64 lands on slot 2, reserves bytes
64..72 and records the descriptor; the same request explicitly
addressed at slot 0 fails with `EndpointOverflow`. -/
theorem alloc_ep_scan_correct_witness :
    (∃ eps', alloc_ep EndpointDirection.In none EndpointType.Bulk 8
        demoAllocEndpoints 64 =
        some (Except.ok ⟨2, EndpointDirection.In⟩, eps', 64 + 8) ∧
      eps'.length = demoAllocEndpoints.length ∧
      (eps'[2]!).in_buf = some (64, 8) ∧
      (eps'[2]!).out_buf = (demoAllocEndpoints[2]!).out_buf) ∧
    (∃ eps', alloc_ep EndpointDirection.In
        (some ⟨0, EndpointDirection.In⟩) EndpointType.Bulk 8
        demoAllocEndpoints 64 =
        some (Except.error UsbError.EndpointOverflow, eps', 64)) := by
  have h := alloc_ep_scan_correct EndpointDirection.In EndpointType.Bulk
    8 64 2 demoAllocEndpoints ⟨0, EndpointDirection.In⟩ rfl
  constructor
  · have h1 := h.1 (by decide) (by decide) (by decide)
      (by intro j hj1 hj2; interval_cases j; decide)
    exact h1.1 (by decide) (by decide)
  · exact (h.2.2 (by decide)).2 (by decide)

/-- C10: `alloc_ep` assigns the requested type to every scanned slot
whose type is still unset before checking the direction's descriptor;
a call that fails with `EndpointOverflow` therefore still leaves the
requested type permanently assigned to every scanned slot that had no
type, with no rollback (the buffer descriptors stay untouched). -/
theorem alloc_ep_failure_sets_types (d : EndpointDirection)
    (t : EndpointType) (mps next : Nat) (eps : List EndpointState)
    (hlen : eps.length = NUM_ENDPOINTS)
    (hall : ∀ j, 1 ≤ j → j < NUM_ENDPOINTS →
      qualifies d t (eps[j]!) = false) :
    ∃ eps', alloc_ep d none t mps eps next =
        some (Except.error UsbError.EndpointOverflow, eps', next) ∧
      eps'.length = eps.length ∧
      (∀ j, 1 ≤ j → j < NUM_ENDPOINTS → (eps[j]!).ep_type = none →
        (eps'[j]!).ep_type = some t) ∧
      (∀ j, j < NUM_ENDPOINTS →
        (eps'[j]!).in_buf = (eps[j]!).in_buf ∧
        (eps'[j]!).out_buf = (eps[j]!).out_buf) := by
  have hN : NUM_ENDPOINTS = 8 := rfl
  have hget : ∀ j, j < NUM_ENDPOINTS → eps[j]? = some (eps[j]!) := by
    intro j hj
    have hjl : j < eps.length := by omega
    rw [list_getElem_bang eps j hjl]
    exact List.getElem?_eq_some.mpr ⟨hjl, rfl⟩
  have hall' : ∀ j ∈ List.range' 1 (NUM_ENDPOINTS - 1),
      ∃ ep, eps[j]? = some ep ∧ qualifies d t ep = false := by
    intro j hj
    rw [List.mem_range'_1] at hj
    have h1 : 1 ≤ j := hj.1
    have h2 : j < NUM_ENDPOINTS := by omega
    exact ⟨eps[j]!, hget j h2, hall j h1 h2⟩
  refine ⟨(List.range' 1 (NUM_ENDPOINTS - 1)).foldl (mark_scanned t) eps,
    alloc_ep_loop_all_skip d t mps _ eps next hall',
    foldl_mark_length t _ eps, ?_, ?_⟩
  · intro j h1 h2 hnone
    obtain ⟨ep', hep', hib, hob, hqd, hty, hm⟩ :=
      foldl_mark_getElem t (List.range' 1 (NUM_ENDPOINTS - 1)) eps j
        (eps[j]!) (hget j h2)
    rw [list_getElem!_of_getElem? _ j ep' hep']
    exact hm (by rw [List.mem_range'_1]; omega) hnone
  · intro j h2
    obtain ⟨ep', hep', hib, hob, hqd, hty, hm⟩ :=
      foldl_mark_getElem t (List.range' 1 (NUM_ENDPOINTS - 1)) eps j
        (eps[j]!) (hget j h2)
    rw [list_getElem!_of_getElem? _ j ep' hep']
    exact ⟨hib, hob⟩

/-- Witness for C10 at a concrete input: with every slot's transmit
buffer taken and no types assigned, an `In`-`Bulk` allocation fails with
`EndpointOverflow`, yet every scanned slot (1 through 7) comes out with
its type permanently set to `Bulk` while all buffer descriptors are
unchanged. -/
theorem alloc_ep_failure_sets_types_witness :
    ∃ eps', alloc_ep EndpointDirection.In none EndpointType.Bulk 8
        demoFullEndpoints 64 =
        some (Except.error UsbError.EndpointOverflow, eps', 64) ∧
      eps'.length = demoFullEndpoints.length ∧
      (∀ j, 1 ≤ j → j < NUM_ENDPOINTS →
        (demoFullEndpoints[j]!).ep_type = none →
        (eps'[j]!).ep_type = some EndpointType.Bulk) ∧
      (∀ j, j < NUM_ENDPOINTS →
        (eps'[j]!).in_buf = (demoFullEndpoints[j]!).in_buf ∧
        (eps'[j]!).out_buf = (demoFullEndpoints[j]!).out_buf) :=
  alloc_ep_failure_sets_types EndpointDirection.In EndpointType.Bulk 8 64
    demoFullEndpoints rfl
    (by
      intro j h1 h2
      have h8 : j < 8 := h2
      interval_cases j <;> decide)
